import Mathlib

/-!
Verification development for the Discomfort core subsystems, as documented in
this repository: the Graph model with DiscomfortPort boundary nodes, the
Port & Mode Resolver, the Graph Stitcher, the Reference Pruner and the tiered
WorkflowContext store.  The repository holds the documentation of these
components; the executable behaviour is modelled from the specification text,
as indicated on each definition.
-/

namespace Discomfort

/-- Modelled from the spec: a Link of the Graph Model (§3, §6 wire contract):
identifier, source (node id, slot), target (node id, slot), data-type tag.
The implementation `[link_id, source_id, source_slot, target_id, target_slot,
type]` is absent from this repository. -/
structure Link where
  id : Nat
  sourceId : Nat
  sourceSlot : Nat
  targetId : Nat
  targetSlot : Nat
  dataType : String
deriving DecidableEq, Repr

/-- Modelled from the spec: a Node of the Graph Model (§3): identifier, type
tag, literal configuration value, and — for DiscomfortPort nodes — the
caller-supplied `unique_id` widget value.  The node implementation is absent
from this repository. -/
structure Node where
  id : Nat
  typeTag : String
  uniqueId : Option String
  config : Int
deriving DecidableEq, Repr

/-- Modelled from the spec: a Graph of the Graph Model (§3): a set of Nodes
and a set of Links, kept here in editor order. -/
structure Graph where
  nodes : List Node
  links : List Link
deriving DecidableEq, Repr

/-- Modelled from the spec: the Mode of a DiscomfortPort (§3, docs
`core-concepts/ports-and-context`): INPUT, OUTPUT or PASSTHRU. -/
inductive Mode where
  | INPUT
  | OUTPUT
  | PASSTHRU
deriving DecidableEq, Repr

/-- Number of inbound links of a node in a graph. -/
def inboundCount (g : Graph) (nid : Nat) : Nat :=
  (g.links.filter (fun l => l.targetId = nid)).length

/-- Number of outbound links of a node in a graph. -/
def outboundCount (g : Graph) (nid : Nat) : Nat :=
  (g.links.filter (fun l => l.sourceId = nid)).length

/-- Modelled from the spec: Mode is computed from connectivity, never stored
(§3): INPUT = zero inbound links and at least one outbound; OUTPUT = at least
one inbound and zero outbound; PASSTHRU = both present; a port with neither
is dangling and has no valid Mode.  The DiscomfortPort implementation is
absent from this repository. -/
def portMode (g : Graph) (nid : Nat) : Option Mode :=
  match inboundCount g nid, outboundCount g nid with
  | 0, 0 => none
  | 0, _ + 1 => some .INPUT
  | _ + 1, 0 => some .OUTPUT
  | _ + 1, _ + 1 => some .PASSTHRU

/-- Whether a node is a DiscomfortPort carrying a `unique_id`. -/
def isPortNode (n : Node) : Bool :=
  n.typeTag = "DiscomfortPort" && n.uniqueId.isSome

end Discomfort

namespace Discomfort

/-- The resolver's port map metadata: node id and derived Mode (§4.1). -/
structure PortInfo where
  nodeId : Nat
  mode : Option Mode
deriving DecidableEq, Repr

/-- Insert a binding into an association map, overwriting any earlier binding
for the same key (dictionary semantics). -/
def insertOverwrite (m : List (String × PortInfo)) (k : String) (v : PortInfo) :
    List (String × PortInfo) :=
  (k, v) :: m.filter (fun kv => kv.1 ≠ k)

/-- Association-map lookup. -/
def mapLookup (m : List (String × PortInfo)) (k : String) : Option PortInfo :=
  (m.find? (fun kv => kv.1 = k)).map (·.2)

/-- One resolver step: record a DiscomfortPort node in the port map,
overwriting any earlier binding of the same `unique_id`. -/
def resolveStep (g : Graph) (m : List (String × PortInfo)) (n : Node) :
    List (String × PortInfo) :=
  if isPortNode n then
    match n.uniqueId with
    | some uid => insertOverwrite m uid ⟨n.id, portMode g n.id⟩
    | none => m
  else m

/-- Modelled from the spec: the Port & Mode Resolver (§4.1) walks the graph's
nodes in traversal order and builds the map `unique_id → {node id, Mode}`;
a duplicate `unique_id` within one graph is silently overwritten by the last
node encountered (last-wins).  The resolver implementation is absent from
this repository. -/
def resolvePorts (g : Graph) : List (String × PortInfo) :=
  g.nodes.foldl (resolveStep g) []

/-- The last port node of a graph carrying a given `unique_id`, in traversal
order. -/
def lastPortWith (g : Graph) (uid : String) : Option Node :=
  ((g.nodes.filter (fun n => isPortNode n && n.uniqueId = some uid)).reverse).head?

/-! ### Reference Pruner and the deterministic stub engine -/

/-- `Ancestor g t a` holds when node `a` lies in the transitive ancestor
closure of target `t` under the link relation: `a` is `t` itself, or the
source of a link whose target is an ancestor of `t` (§4.3). -/
inductive Ancestor (g : Graph) (t : Nat) : Nat → Prop where
  | refl : Ancestor g t t
  | step {a b : Nat} (l : Link) (hl : l ∈ g.links) (hs : l.sourceId = a)
      (ht : l.targetId = b) (hb : Ancestor g t b) : Ancestor g t a

/-- One round of reverse reachability: add every source of a link whose
target is already collected, keeping the list duplicate-free. -/
def ancestorsStep (links : List Link) (s : List Nat) : List Nat :=
  s ++ ((((links.filter (fun l => decide (l.targetId ∈ s))).map
    (fun l => l.sourceId)).filter (fun a => decide (a ∉ s))).dedup)

/-- Iterate `ancestorsStep` until it no longer grows the collection. -/
def iterAncestors (links : List Link) : Nat → List Nat → List Nat
  | 0, s => s
  | fuel + 1, s =>
    if (ancestorsStep links s).length = s.length then s
    else iterAncestors links fuel (ancestorsStep links s)

/-- Modelled from the spec: the transitive ancestor closure of a target node
under the inbound-link relation (§4.3, `_prune_workflow_to_output`); the
pruner implementation is absent from this repository.  The fuel
`links.length + 1` always suffices to reach the fixpoint. -/
def ancestorClosure (g : Graph) (target : Nat) : List Nat :=
  iterAncestors g.links (g.links.length + 1) [target]

/-- Modelled from the spec: prune a graph to the minimal subgraph covering
exactly the ancestor closure of the target; nodes and links outside the
closure are excluded (§4.3). -/
def pruneToTarget (g : Graph) (target : Nat) : Graph :=
  { nodes := g.nodes.filter (fun n => decide (n.id ∈ ancestorClosure g target))
    links := g.links.filter
      (fun l => decide (l.sourceId ∈ ancestorClosure g target) &&
        decide (l.targetId ∈ ancestorClosure g target)) }

/-- Modelled from the spec: a ReproductionRecipe (§3): a pruned Graph plus a
designated (node id, slot) target. -/
structure ReproductionRecipe where
  graph : Graph
  targetNode : Nat
  targetSlot : Nat
deriving DecidableEq, Repr

/-- Modelled from the spec: `Pruner.prune(G, target)` returns the minimal
ReproductionRecipe for the target (§4.3). -/
def prune (g : Graph) (targetNode targetSlot : Nat) : ReproductionRecipe :=
  ⟨pruneToTarget g targetNode, targetNode, targetSlot⟩

/-- Modelled from the spec: the deterministic stub engine of §8 — each node's
output is a pure function of its own configuration and of its inputs'
outputs; here output = config + sum of input values.  A missing node, a
missing input or exhausted fuel yields no value. -/
def evalNode (g : Graph) : Nat → Nat → Option Int
  | 0, _ => none
  | fuel + 1, nid =>
    match g.nodes.find? (fun n => n.id = nid) with
    | none => none
    | some n =>
      if ((g.links.filter (fun l => l.targetId = nid)).map
          (fun l => evalNode g fuel l.sourceId)).all (fun v => v.isSome) then
        some (n.config +
          (((g.links.filter (fun l => l.targetId = nid)).map
            (fun l => evalNode g fuel l.sourceId)).map (fun v => v.getD 0)).sum)
      else none

/-! ### Graph Stitcher -/

/-- Node ids of a graph. -/
def nodeIds (g : Graph) : List Nat := g.nodes.map (fun n => n.id)

/-- Link ids of a graph. -/
def linkIds (g : Graph) : List Nat := g.links.map (fun l => l.id)

/-- The empty graph. -/
def emptyGraph : Graph := ⟨[], []⟩

/-- Largest node or link identifier used by a graph (0 when empty). -/
def graphMaxId (g : Graph) : Nat :=
  (nodeIds g ++ linkIds g).foldr max 0

/-- Shift a node id by an offset. -/
def shiftNode (off : Nat) (n : Node) : Node := { n with id := n.id + off }

/-- Shift a link id and its endpoints by an offset. -/
def shiftLink (off : Nat) (l : Link) : Link :=
  { l with
    id := l.id + off
    sourceId := l.sourceId + off
    targetId := l.targetId + off }

/-- Shift every node and link id of a graph by an offset. -/
def shiftGraph (off : Nat) (g : Graph) : Graph :=
  ⟨g.nodes.map (shiftNode off), g.links.map (shiftLink off)⟩

/-- Modelled from the spec: disjoint renumbering (§4.2 step 2) — graph `k`
is shifted by one more than the largest id used by the already renumbered
graphs `0..k-1`.  The stitcher implementation is absent from this
repository. -/
def renumberFrom : Nat → List Graph → List Graph
  | _, [] => []
  | off, g :: gs => shiftGraph off g :: renumberFrom (off + graphMaxId g + 1) gs

/-- Renumber a list of graphs so that no node or link ids collide. -/
def renumberGraphs (gs : List Graph) : List Graph := renumberFrom 0 gs

/-- Union of a list of graphs (after disjoint renumbering). -/
def unionGraphs (gs : List Graph) : Graph :=
  ⟨(gs.map (fun g => g.nodes)).flatten, (gs.map (fun g => g.links)).flatten⟩

/-- Modelled from the spec: reroute elimination (§4.2 step 1) — rewire the
single inbound source of a pure passthrough node directly to all of its
downstream targets, preserving link type tags. -/
def rewireAround (nid : Nat) (links : List Link) : List Link :=
  match links.find? (fun l => l.targetId = nid) with
  | some inl =>
    links.foldr
      (fun l acc =>
        if l.targetId = nid then acc
        else if l.sourceId = nid then
          { l with sourceId := inl.sourceId, sourceSlot := inl.sourceSlot } :: acc
        else l :: acc) []
  | none => links.filter (fun l => !(l.sourceId = nid) && !(l.targetId = nid))

/-- Modelled from the spec: remove every Reroute utility node, rewiring its
source to its downstream targets (§4.2 step 1). -/
def removeReroutes (g : Graph) : Graph :=
  g.nodes.foldl
    (fun acc n =>
      if n.typeTag = "Reroute" then
        { nodes := acc.nodes.filter (fun m => m.id ≠ n.id)
          links := rewireAround n.id acc.links }
      else acc) g

/-- Last OUTPUT-mode port of a graph carrying a `unique_id` (last-wins
tie-break, §4.2). -/
def outputPortFor (u : Graph) (uid : String) : Option Node :=
  ((u.nodes.filter (fun n => isPortNode n && n.uniqueId = some uid &&
    decide (portMode u n.id = some .OUTPUT))).reverse).head?

/-- Last INPUT-mode port of a graph carrying a `unique_id` (last-wins
tie-break, §4.2). -/
def inputPortFor (u : Graph) (uid : String) : Option Node :=
  ((u.nodes.filter (fun n => isPortNode n && n.uniqueId = some uid &&
    decide (portMode u n.id = some .INPUT))).reverse).head?

/-- All `unique_id`s used by port nodes of a graph. -/
def boundaryUids (u : Graph) : List String :=
  ((u.nodes.filter isPortNode).filterMap (fun n => n.uniqueId)).dedup

/-- Modelled from the spec: boundary collapse of one matched `unique_id`
(§4.2 step 3) — synthesize a link from the OUTPUT port's upstream source to
every consumer of the INPUT port, then drop both port nodes (and the links
that touched them). -/
def collapsePair (u : Graph) (outN inN : Node) : Graph :=
  match u.links.find? (fun l => l.targetId = outN.id) with
  | none => u
  | some up =>
    let consumers := u.links.filter (fun l => l.sourceId = inN.id)
    let base := graphMaxId u + 1
    let newLinks := consumers.enum.map
      (fun kc =>
        { id := base + kc.1
          sourceId := up.sourceId
          sourceSlot := up.sourceSlot
          targetId := kc.2.targetId
          targetSlot := kc.2.targetSlot
          dataType := kc.2.dataType })
    { nodes := u.nodes.filter (fun n => n.id ≠ outN.id && n.id ≠ inN.id)
      links := (u.links.filter
        (fun l => l.sourceId ≠ outN.id && l.targetId ≠ outN.id &&
          l.sourceId ≠ inN.id && l.targetId ≠ inN.id)) ++ newLinks }

/-- Modelled from the spec: the join step (§4.2 step 3) — for each
`unique_id` present both as an OUTPUT port and as an INPUT port, collapse
the boundary. -/
def joinGraphs (u : Graph) : Graph :=
  (boundaryUids u).foldl
    (fun acc uid =>
      match outputPortFor acc uid, inputPortFor acc uid with
      | some oN, some iN => collapsePair acc oN iN
      | _, _ => acc) u

/-- Modelled from the spec: residual-port pruning (§4.2 step 4) — when the
corresponding flag is set, drop the residual INPUT (resp. OUTPUT) boundary
ports of the union graph. -/
def dropResidualPorts (dIn dOut : Bool) (u : Graph) : Graph :=
  let dropIds := u.nodes.filterMap
    (fun n =>
      if isPortNode n &&
          ((dIn && decide (portMode u n.id = some .INPUT)) ||
           (dOut && decide (portMode u n.id = some .OUTPUT))) then
        some n.id
      else none)
  { nodes := u.nodes.filter (fun n => decide (n.id ∉ dropIds))
    links := u.links.filter
      (fun l => decide (l.sourceId ∉ dropIds) && decide (l.targetId ∉ dropIds)) }

/-- Nodes of `remaining` that have no inbound link from a `remaining`
source. -/
def readyNodes (links : List Link) (remaining : List Nat) : List Nat :=
  remaining.filter
    (fun n => !(links.any (fun l => l.targetId = n && remaining.contains l.sourceId)))

/-- Modelled from the spec: Kahn-style topological sorting (§4.2 step 5,
`NetworkXUnfeasible` on cycles): repeatedly emit the nodes with no
unprocessed predecessor; fail when none is ready while nodes remain. -/
def kahn (links : List Link) : Nat → List Nat → List Nat → Option (List Nat)
  | 0, acc, remaining => if remaining.isEmpty then some acc else none
  | fuel + 1, acc, remaining =>
    if remaining.isEmpty then some acc
    else
      let ready := readyNodes links remaining
      if ready.isEmpty then none
      else kahn links fuel (acc ++ ready)
        (remaining.filter (fun n => !(ready.contains n)))

/-- A valid linearized execution order: every link's source precedes its
target, and every node appears in the order (§8). -/
def isTopoOrder (g : Graph) (ord : List Nat) : Bool :=
  g.links.all (fun l => ord.indexOf l.sourceId < ord.indexOf l.targetId) &&
  (nodeIds g).all (fun n => ord.contains n)

/-- Modelled from the spec: a StitchedGraph (§3): the union graph, the
retained INPUT and OUTPUT port maps, and a linearized execution order. -/
structure StitchedGraph where
  graph : Graph
  inputs : List (String × PortInfo)
  outputs : List (String × PortInfo)
  execution_order : List Nat
deriving DecidableEq, Repr

/-- Modelled from the spec: `GraphValidationError` (§7) — fatal to the
stitching call, no partial graph returned. -/
inductive StitchError where
  | graphValidation
deriving DecidableEq, Repr

/-- The union graph validated by stitching: reroute elimination, disjoint
renumbering, union, boundary collapse, residual-port pruning (§4.2
steps 1–4). -/
def stitchUnion (gs : List Graph) (dIn dOut : Bool) : Graph :=
  dropResidualPorts dIn dOut
    (joinGraphs (unionGraphs (renumberGraphs (gs.map removeReroutes))))

/-- Residual INPUT port map of the stitched union. -/
def residualInputs (u : Graph) : List (String × PortInfo) :=
  (resolvePorts u).filter (fun kv => decide (kv.2.mode = some Mode.INPUT))

/-- Residual OUTPUT port map of the stitched union. -/
def residualOutputs (u : Graph) : List (String × PortInfo) :=
  (resolvePorts u).filter (fun kv => decide (kv.2.mode = some Mode.OUTPUT))

/-- Modelled from the spec: `Tools.stitch_workflows` (§4.2, docs
`workflow-tools`): compose the graphs, validate the union is acyclic and
compute a topological execution order; a cycle is a fatal
`GraphValidationError` and no partial StitchedGraph is returned.  The
implementation is absent from this repository. -/
def stitch_workflows (gs : List Graph) (dIn dOut : Bool) :
    Except StitchError StitchedGraph :=
  match kahn (stitchUnion gs dIn dOut).links
      ((stitchUnion gs dIn dOut).nodes.length + 1) []
      (nodeIds (stitchUnion gs dIn dOut)) with
  | none => .error .graphValidation
  | some ord =>
    if isTopoOrder (stitchUnion gs dIn dOut) ord then
      .ok ⟨stitchUnion gs dIn dOut, residualInputs (stitchUnion gs dIn dOut),
        residualOutputs (stitchUnion gs dIn dOut), ord⟩
    else .error .graphValidation

/-- Concrete one-node graph, for concrete evaluations. -/
def gA : Graph := ⟨[⟨0, "A", none, 1⟩], []⟩

/-- A second concrete one-node graph, for concrete evaluations. -/
def gB : Graph := ⟨[⟨0, "B", none, 2⟩], []⟩

/-- A concrete two-node graph with one link, for concrete evaluations. -/
def gC : Graph := ⟨[⟨0, "A", none, 1⟩, ⟨1, "B", none, 2⟩], [⟨5, 0, 0, 1, 0, "INT"⟩]⟩

/-- The link of `gC`. -/
def linkC : Link := ⟨5, 0, 0, 1, 0, "INT"⟩

/-- The StitchedGraph produced by stitching `[gC]` alone. -/
def sgC : StitchedGraph := ⟨gC, [], [], [0, 1]⟩

/-- A concrete graph with a self-loop (a one-node cycle), for concrete
evaluations. -/
def gD : Graph := ⟨[⟨0, "A", none, 1⟩], [⟨1, 0, 0, 0, 0, "INT"⟩]⟩

/-- The self-loop link of `gD`. -/
def linkD : Link := ⟨1, 0, 0, 0, 0, "INT"⟩

/-- One hop of the link relation of a graph. -/
def PathStep (g : Graph) (a b : Nat) : Prop :=
  ∃ l ∈ g.links, l.sourceId = a ∧ l.targetId = b

/-! ### Tiered Context Store -/

/-- Modelled from the spec: storage tier of a ContextEntry (§3). -/
inductive Tier where
  | RAM
  | DISK
deriving DecidableEq, Repr

/-- Modelled from the spec: pass-by method of a ContextEntry (§3): "val" or
"ref". -/
inductive PassBy where
  | VAL
  | REF
deriving DecidableEq, Repr

/-- Modelled from the spec: a serializable value handled by the store
(docs `workflow-context`): numbers, text, or tensor-like data. -/
inductive CData where
  | dInt : Int → CData
  | dStr : String → CData
  | dTensor : List Int → CData
deriving DecidableEq, Repr

/-- Modelled from the spec: serialization of a value to a byte-like stream
(the implementation pickles with cloudpickle, absent from this
repository). -/
def serialize : CData → List Int
  | .dInt i => [0, i]
  | .dStr s => 1 :: s.toList.map (fun c => (c.toNat : Int))
  | .dTensor xs => 2 :: xs

/-- Modelled from the spec: deserialization, the inverse of `serialize`. -/
def deserialize (bs : List Int) : Option CData :=
  match bs with
  | [] => none
  | tag :: rest =>
    if tag = 0 then
      match rest with
      | [i] => some (.dInt i)
      | _ => none
    else if tag = 1 then
      some (.dStr (String.mk (rest.map (fun i => Char.ofNat i.toNat))))
    else if tag = 2 then some (.dTensor rest)
    else none

/-- Serialized byte size of a value. -/
def sizeBytes (v : CData) : Nat := (serialize v).length

/-- Modelled from the spec: a ContextEntry (§3): tier, pass-by method, byte
size and — for pass-by-reference entries — the ReproductionRecipe. -/
structure ContextEntry where
  passBy : PassBy
  tier : Tier
  size : Nat
  recipe : Option ReproductionRecipe
deriving DecidableEq, Repr

/-- Modelled from the spec: the WorkflowContext store state (§3, docs
`workflow-context`): entry metadata, the RAM tier contents, the disk
scratch-directory contents, the RAM budget and live usage counter, and
whether the scratch directory exists. -/
structure ContextStore where
  meta : List (String × ContextEntry)
  ramData : List (String × List Int)
  diskData : List (String × List Int)
  ramBudget : Nat
  ramUsed : Nat
  scratchDirExists : Bool
deriving DecidableEq, Repr

/-- Association-map lookup (dictionary read). -/
def alookup {α : Type} (m : List (String × α)) (k : String) : Option α :=
  (m.find? (fun kv => kv.1 = k)).map (fun kv => kv.2)

/-- Association-map erase (dictionary delete). -/
def aerase {α : Type} (m : List (String × α)) (k : String) : List (String × α) :=
  m.filter (fun kv => kv.1 ≠ k)

/-- Association-map insert with overwrite (dictionary write). -/
def ainsert {α : Type} (m : List (String × α)) (k : String) (v : α) :
    List (String × α) :=
  (k, v) :: aerase m k

/-- Modelled from the spec: release the resources of one key (§4.4
last-write-wins — the previous tier resources are released when an entry is
replaced or removed). -/
def releaseKey (s : ContextStore) (id : String) : ContextStore :=
  match alookup s.meta id with
  | none => s
  | some e =>
    { s with
      meta := aerase s.meta id
      ramData := aerase s.ramData id
      diskData := aerase s.diskData id
      ramUsed := if e.tier = Tier.RAM then s.ramUsed - e.size else s.ramUsed }

/-- Modelled from the spec: `save` with pass-by VALUE (§4.4): serialize, then
place in RAM if `useRam` and the updated usage fits the budget, else spill to
the disk scratch directory; the fallback is automatic and never raises for
capacity reasons alone.  The implementation is absent from this
repository. -/
def saveVal (s : ContextStore) (id : String) (v : CData) (useRam : Bool) :
    ContextStore :=
  if useRam && decide ((releaseKey s id).ramUsed + sizeBytes v ≤
      (releaseKey s id).ramBudget) then
    { releaseKey s id with
      meta := ainsert (releaseKey s id).meta id ⟨PassBy.VAL, Tier.RAM, sizeBytes v, none⟩
      ramData := ainsert (releaseKey s id).ramData id (serialize v)
      ramUsed := (releaseKey s id).ramUsed + sizeBytes v }
  else
    { releaseKey s id with
      meta := ainsert (releaseKey s id).meta id ⟨PassBy.VAL, Tier.DISK, sizeBytes v, none⟩
      diskData := ainsert (releaseKey s id).diskData id (serialize v) }

/-- Modelled from the spec: `save` with pass-by REFERENCE (§4.4): store the
supplied ReproductionRecipe, always RAM-resident (recipes are small by
construction; their size is modelled as the recipe graph's element count). -/
def saveRef (s : ContextStore) (id : String) (r : ReproductionRecipe) :
    ContextStore :=
  { releaseKey s id with
    meta := ainsert (releaseKey s id).meta id
      ⟨PassBy.REF, Tier.RAM, r.graph.nodes.length + r.graph.links.length, some r⟩
    ramUsed := (releaseKey s id).ramUsed +
      (r.graph.nodes.length + r.graph.links.length) }

/-- Modelled from the spec: the store error taxonomy relevant to `load`
(§7): `NotFoundError` for an unknown key, `ReconstructionError` when
resolving a REFERENCE entry fails. -/
inductive CtxError where
  | notFound
  | reconstructionError
deriving DecidableEq, Repr

/-- Modelled from the spec: `load` (§4.4): VALUE entries are deserialized
from their tier; REFERENCE entries re-execute their recipe through the
engine; a missing id is a `NotFoundError` local to the call — the store is
returned unchanged in every case (no memoization). -/
def load (s : ContextStore) (id : String) :
    Except CtxError CData × ContextStore :=
  match alookup s.meta id with
  | none => (.error .notFound, s)
  | some e =>
    match e.passBy with
    | .VAL =>
      let src := match e.tier with | .RAM => s.ramData | .DISK => s.diskData
      match alookup src id with
      | some bs =>
        match deserialize bs with
        | some v => (.ok v, s)
        | none => (.error .reconstructionError, s)
      | none => (.error .reconstructionError, s)
    | .REF =>
      match e.recipe with
      | some r =>
        match evalNode r.graph (r.graph.nodes.length + r.graph.links.length + 1)
            r.targetNode with
        | some v => (.ok (.dInt v), s)
        | none => (.error .reconstructionError, s)
      | none => (.error .reconstructionError, s)

/-- Storage metadata reported by `get_storage_info`. -/
structure StorageInfo where
  storage_type : Tier
  size : Nat
  pass_by : PassBy
deriving DecidableEq, Repr

/-- Modelled from the spec: `get_storage_info` (docs `workflow-context`):
read-only metadata about one stored id, `none` when the id is unknown. -/
def get_storage_info (s : ContextStore) (id : String) : Option StorageInfo :=
  (alookup s.meta id).map (fun e => ⟨e.tier, e.size, e.passBy⟩)

/-- Modelled from the spec: `list_keys` — all stored unique_ids. -/
def list_keys (s : ContextStore) : List String := s.meta.map (fun kv => kv.1)

/-- Modelled from the spec: `ExportError` (§7): reference export, or
destination exists without overwrite; plus the not-found case. -/
inductive ExpError where
  | notFound
  | exportError
deriving DecidableEq, Repr

/-- Modelled from the spec: `export_data` (§4.4): move a VALUE entry to
durable storage (the destination file system is modelled as the list of
existing paths) and remove it from the store; fails with `ExportError` for
REFERENCE entries and for an existing destination when `overwrite` is
false. -/
def export_data (s : ContextStore) (id : String) (fs : List String)
    (dest : String) (overwrite : Bool) :
    Except ExpError (ContextStore × List String) :=
  match alookup s.meta id with
  | none => .error .notFound
  | some e =>
    if e.passBy = PassBy.REF then .error .exportError
    else if decide (dest ∈ fs) && !overwrite then .error .exportError
    else .ok (releaseKey s id, if decide (dest ∈ fs) then fs else dest :: fs)

/-- Modelled from the spec: `shutdown` (§4.4): release every RAM allocation,
delete every disk artifact and the scratch directory; idempotent and
thread-safe to call multiple times (docs `workflow-context` cleanup
operations).  Total — it raises no error. -/
def shutdown (s : ContextStore) : ContextStore :=
  { meta := []
    ramData := []
    diskData := []
    ramBudget := s.ramBudget
    ramUsed := 0
    scratchDirExists := false }

/-- An empty store with some RAM budget, for concrete evaluations. -/
def emptyStore : ContextStore := ⟨[], [], [], 1024, 0, true⟩

/-- An empty store whose RAM budget is exhausted, for concrete evaluations. -/
def tinyStore : ContextStore := ⟨[], [], [], 0, 0, true⟩

/-- A store holding one pass-by-reference entry, for concrete evaluations. -/
def refStore : ContextStore :=
  ⟨[("model", ⟨PassBy.REF, Tier.RAM, 1,
      some ⟨⟨[⟨1, "Loader", none, 5⟩], []⟩, 1, 0⟩⟩)], [], [], 1024, 1, true⟩

/-- A store holding one pass-by-value RAM entry, for concrete evaluations. -/
def valStore : ContextStore :=
  ⟨[("k", ⟨PassBy.VAL, Tier.RAM, 2, none⟩)], [("k", [0, 7])], [], 1024, 2, true⟩

theorem find?_filter_eq {α : Type} (l : List α) (p q : α → Bool)
    (h : ∀ a, p a → q a) : (l.filter q).find? p = l.find? p := by
  induction l with
  | nil => rfl
  | cons a l ih =>
    by_cases hq : q a
    · rw [List.filter_cons_of_pos hq]
      by_cases hp : p a
      · rw [List.find?_cons_of_pos _ hp, List.find?_cons_of_pos _ hp]
      · rw [List.find?_cons_of_neg _ hp, List.find?_cons_of_neg _ hp, ih]
    · have hp : ¬ p a = true := fun hpa => hq (h a hpa)
      rw [List.filter_cons_of_neg (by simpa using hq),
        List.find?_cons_of_neg _ hp, ih]

theorem lookup_insertOverwrite_same (m : List (String × PortInfo))
    (k : String) (v : PortInfo) : mapLookup (insertOverwrite m k v) k = some v := by
  simp [mapLookup, insertOverwrite, List.find?]

theorem lookup_insertOverwrite_other (m : List (String × PortInfo))
    (k k' : String) (v : PortInfo) (h : k' ≠ k) :
    mapLookup (insertOverwrite m k v) k' = mapLookup m k' := by
  unfold mapLookup insertOverwrite
  rw [List.find?_cons_of_neg _ (by simp [Ne.symm h])]
  rw [find?_filter_eq]
  intro a hpa
  simp only [decide_eq_true_eq] at hpa
  simp [hpa, h]

/-- Core last-wins lemma for the resolver fold, generalized over the initial
accumulator map. -/
theorem foldl_resolveStep_lookup (g : Graph) (uid : String) :
    ∀ (ns : List Node) (m : List (String × PortInfo)),
      mapLookup (ns.foldl (resolveStep g) m) uid =
        match ((ns.filter
            (fun n => isPortNode n && n.uniqueId = some uid)).reverse).head? with
        | some n => some ⟨n.id, portMode g n.id⟩
        | none => mapLookup m uid := by
  intro ns
  induction ns with
  | nil => intro m; rfl
  | cons n ns ih =>
    intro m
    rw [List.foldl_cons, ih]
    by_cases hmatch : (isPortNode n && n.uniqueId = some uid) = true
    · have hfc : (n :: ns).filter (fun x => isPortNode x && x.uniqueId = some uid) =
          n :: ns.filter (fun x => isPortNode x && x.uniqueId = some uid) := by
        simp [List.filter_cons, hmatch]
      have huid : n.uniqueId = some uid := by
        simp only [Bool.and_eq_true, decide_eq_true_eq] at hmatch
        exact hmatch.2
      have hport : isPortNode n = true := by
        simp only [Bool.and_eq_true] at hmatch
        exact hmatch.1
      have hstep : resolveStep g m n =
          insertOverwrite m uid ⟨n.id, portMode g n.id⟩ := by
        simp [resolveStep, hport, huid]
      rw [hfc, List.reverse_cons]
      cases hrev : ((ns.filter
          (fun x => isPortNode x && x.uniqueId = some uid)).reverse) with
      | nil =>
        simp only [hrev, List.nil_append, List.head?_cons]
        rw [hstep, lookup_insertOverwrite_same]
        rfl
      | cons b bs =>
        simp only [hrev, List.cons_append, List.head?_cons]
    · have hfc : (n :: ns).filter (fun x => isPortNode x && x.uniqueId = some uid) =
          ns.filter (fun x => isPortNode x && x.uniqueId = some uid) := by
        simp only [List.filter_cons]
        simp [hmatch]
      rw [hfc]
      have hstep : mapLookup (resolveStep g m n) uid = mapLookup m uid := by
        unfold resolveStep
        by_cases hport : isPortNode n = true
        · rw [if_pos hport]
          cases hid : n.uniqueId with
          | none => rfl
          | some uid' =>
            have hne : uid ≠ uid' := by
              intro hEq
              apply hmatch
              simp [hport, hid, hEq]
            exact lookup_insertOverwrite_other m uid' uid _ hne
        · rw [if_neg hport]
      rw [hstep]

end Discomfort

namespace Discomfort

/-! ### Association-map lemmas and serialization round trip -/

theorem alookup_ainsert_same {α : Type} (m : List (String × α)) (k : String)
    (v : α) : alookup (ainsert m k v) k = some v := by
  simp [alookup, ainsert, aerase, List.find?]

theorem alookup_ainsert_other {α : Type} (m : List (String × α))
    (k k' : String) (v : α) (h : k' ≠ k) :
    alookup (ainsert m k v) k' = alookup m k' := by
  unfold alookup ainsert aerase
  rw [List.find?_cons_of_neg _ (by simp [Ne.symm h])]
  rw [find?_filter_eq]
  intro a hpa
  simp only [decide_eq_true_eq] at hpa
  simp [hpa, h]

theorem alookup_aerase_same {α : Type} (m : List (String × α)) (k : String) :
    alookup (aerase m k) k = none := by
  unfold alookup aerase
  rw [List.find?_eq_none.2]
  · rfl
  · intro x hx
    have := (List.mem_filter.1 hx).2
    simp only [decide_eq_true_eq] at this ⊢
    simpa using this

theorem not_mem_keys_releaseKey (s : ContextStore) (id : String) :
    id ∉ list_keys (releaseKey s id) := by
  unfold releaseKey
  cases h : alookup s.meta id with
  | none =>
    intro hmem
    unfold list_keys at hmem
    obtain ⟨kv, hkv, hfst⟩ := List.mem_map.1 hmem
    unfold alookup at h
    have hf : List.find? (fun kv => decide (kv.1 = id)) s.meta = none :=
      Option.map_eq_none.1 h
    have h2 := List.find?_eq_none.1 hf kv hkv
    simp [hfst] at h2
  | some e =>
    intro hmem
    unfold list_keys at hmem
    obtain ⟨kv, hkv, hfst⟩ := List.mem_map.1 hmem
    have := (List.mem_filter.1 hkv).2
    simp [hfst] at this

theorem charListRoundTrip (s : String) :
    (s.toList.map (fun c => ((c.toNat : Int)))).map
      (fun i => Char.ofNat i.toNat) = s.toList := by
  rw [List.map_map]
  have hc : ((fun i => Char.ofNat i.toNat) ∘ fun (c : Char) => ((c.toNat : Int))) = id := by
    funext c
    simp only [Function.comp]
    rw [Int.toNat_natCast, Char.ofNat_toNat]
    rfl
  rw [hc, List.map_id]

theorem stringMk_toList (s : String) : String.mk s.toList = s := by
  cases s
  rfl

theorem deserialize_serialize (v : CData) : deserialize (serialize v) = some v := by
  cases v with
  | dInt i => rfl
  | dStr s =>
    show deserialize (1 :: s.toList.map (fun c => ((c.toNat : Int)))) = _
    simp only [deserialize]
    rw [if_neg (by norm_num), if_pos trivial]
    rw [charListRoundTrip, stringMk_toList]
  | dTensor xs =>
    show deserialize (2 :: xs) = _
    simp only [deserialize]
    rw [if_neg (by norm_num), if_neg (by norm_num), if_pos trivial]


/-! ### Claim theorems: resolver and store -/

/-- C1: For every boundary Port node in a graph, the Resolver assigns exactly
one Mode determined by its link counts: INPUT iff it has zero inbound links
and at least one outbound link, OUTPUT iff at least one inbound and zero
outbound, PASSTHRU iff both are present; a Port with neither inbound nor
outbound links has no valid Mode. -/
theorem C1_portMode_determined_by_link_counts (g : Graph) (nid : Nat) :
    (portMode g nid = some Mode.INPUT ↔
      inboundCount g nid = 0 ∧ 1 ≤ outboundCount g nid) ∧
    (portMode g nid = some Mode.OUTPUT ↔
      1 ≤ inboundCount g nid ∧ outboundCount g nid = 0) ∧
    (portMode g nid = some Mode.PASSTHRU ↔
      1 ≤ inboundCount g nid ∧ 1 ≤ outboundCount g nid) ∧
    (portMode g nid = none ↔
      inboundCount g nid = 0 ∧ outboundCount g nid = 0) := by
  unfold portMode
  cases hin : inboundCount g nid with
  | zero =>
    cases hout : outboundCount g nid with
    | zero => simp
    | succ m => simp
  | succ k =>
    cases hout : outboundCount g nid with
    | zero => simp
    | succ m => simp

/-- C8: For every graph containing two or more Port nodes that share one
`unique_id`, the Resolver's port map binds that `unique_id` to the last such
node encountered in traversal order, silently overwriting the earlier ones:
the lookup always yields exactly the metadata of the last matching port
node. -/
theorem C8_resolver_duplicate_unique_id_last_wins (g : Graph) (uid : String) :
    mapLookup (resolvePorts g) uid =
      (lastPortWith g uid).map (fun n => (⟨n.id, portMode g n.id⟩ : PortInfo)) := by
  unfold resolvePorts lastPortWith
  rw [foldl_resolveStep_lookup]
  cases h : ((g.nodes.filter
      (fun n => isPortNode n && n.uniqueId = some uid)).reverse).head? with
  | none => rfl
  | some n => rfl

/-- C3: For every key and every serializable value, `save` with pass-by VALUE
followed by `load` on the same store returns the saved value, whether the
entry was placed on the RAM tier or the disk tier; the load leaves the store
unchanged. -/
theorem C3_save_then_load_roundtrip (s : ContextStore) (id : String)
    (v : CData) (useRam : Bool) :
    load (saveVal s id v useRam) id = (Except.ok v, saveVal s id v useRam) := by
  unfold saveVal
  by_cases hc : (useRam && decide ((releaseKey s id).ramUsed + sizeBytes v ≤
      (releaseKey s id).ramBudget)) = true
  · rw [if_pos hc]
    simp only [load, alookup_ainsert_same, deserialize_serialize]
  · rw [if_neg hc]
    simp only [load, alookup_ainsert_same, deserialize_serialize]

/-- C4: Saving a VALUE entry larger than the remaining RAM budget with
`useRam = true` succeeds without any capacity error (`saveVal` is total), the
entry lands on the disk tier with its serialized payload, and
`get_storage_info` afterwards reports the DISK tier. -/
theorem C4_capacity_fallback_to_disk (s : ContextStore) (id : String)
    (v : CData) (hfresh : alookup s.meta id = none)
    (hcap : s.ramBudget < s.ramUsed + sizeBytes v) :
    get_storage_info (saveVal s id v true) id =
      some ⟨Tier.DISK, sizeBytes v, PassBy.VAL⟩ ∧
    id ∈ list_keys (saveVal s id v true) ∧
    alookup (saveVal s id v true).diskData id = some (serialize v) := by
  have hrel : releaseKey s id = s := by
    unfold releaseKey
    rw [hfresh]
  have hcond : ¬ ((true && decide (s.ramUsed + sizeBytes v ≤ s.ramBudget)) = true) := by
    simp only [Bool.true_and, decide_eq_true_eq]
    omega
  unfold saveVal
  rw [hrel, if_neg hcond]
  refine ⟨?_, ?_, ?_⟩
  · simp only [get_storage_info, alookup_ainsert_same]
    rfl
  · simp [list_keys, ainsert]
  · simp only [alookup_ainsert_same]

/-- Witness for C4 at a concrete store: the empty store with an exhausted RAM
budget spills the entry to disk. -/
theorem C4_capacity_fallback_to_disk_witness :
    alookup tinyStore.meta "big" = none ∧
    tinyStore.ramBudget < tinyStore.ramUsed + sizeBytes (CData.dInt 7) ∧
    get_storage_info (saveVal tinyStore "big" (CData.dInt 7) true) "big" =
      some ⟨Tier.DISK, sizeBytes (CData.dInt 7), PassBy.VAL⟩ :=
  ⟨rfl, by decide,
    (C4_capacity_fallback_to_disk tinyStore "big" (CData.dInt 7) rfl (by decide)).1⟩

/-- C6: Loading a key with no entry fails with NotFoundError and the store is
returned unchanged — the failure is local to the call. -/
theorem C6_load_missing_notFound (s : ContextStore) (id : String)
    (h : alookup s.meta id = none) :
    load s id = (Except.error CtxError.notFound, s) := by
  unfold load
  rw [h]

/-- Witness for C6 at a concrete store. -/
theorem C6_load_missing_notFound_witness :
    alookup emptyStore.meta "nothing" = none ∧
    load emptyStore "nothing" = (Except.error CtxError.notFound, emptyStore) :=
  ⟨rfl, C6_load_missing_notFound emptyStore "nothing" rfl⟩

/-- C7: `export_data` raises ExportError on a pass-by-REFERENCE entry, raises
ExportError when the destination exists and `overwrite` is false, and a
successful export removes the entry so its id no longer appears in
`list_keys`. -/
theorem C7_export_data_rules :
    (∀ s id fs dest ow e, alookup s.meta id = some e → e.passBy = PassBy.REF →
      export_data s id fs dest ow = Except.error ExpError.exportError) ∧
    (∀ s id fs dest e, alookup s.meta id = some e → dest ∈ fs →
      export_data s id fs dest false = Except.error ExpError.exportError) ∧
    (∀ s id fs dest ow out, export_data s id fs dest ow = Except.ok out →
      id ∉ list_keys out.1) := by
  refine ⟨?_, ?_, ?_⟩
  · intro s id fs dest ow e he href
    simp only [export_data, he]
    rw [if_pos href]
  · intro s id fs dest e he hdest
    simp only [export_data, he]
    by_cases h1 : e.passBy = PassBy.REF
    · rw [if_pos h1]
    · rw [if_neg h1, if_pos (by simp [hdest])]
  · intro s id fs dest ow out h
    cases he : alookup s.meta id with
    | none =>
      simp only [export_data, he] at h
      cases h
    | some e =>
      simp only [export_data, he] at h
      by_cases h1 : e.passBy = PassBy.REF
      · rw [if_pos h1] at h
        cases h
      · rw [if_neg h1] at h
        by_cases h2 : (decide (dest ∈ fs) && !ow) = true
        · rw [if_pos h2] at h
          cases h
        · rw [if_neg h2] at h
          cases h
          exact not_mem_keys_releaseKey s id

/-- Witness for C7 at concrete stores: a REFERENCE entry, an existing
destination, and a successful VALUE export. -/
theorem C7_export_data_rules_witness :
    export_data refStore "model" [] "out" false =
      Except.error ExpError.exportError ∧
    export_data valStore "k" ["d"] "d" false =
      Except.error ExpError.exportError ∧
    "k" ∉ list_keys (releaseKey valStore "k") :=
  ⟨C7_export_data_rules.1 refStore "model" [] "out" false _ rfl rfl,
   C7_export_data_rules.2.1 valStore "k" ["d"] "d" _ rfl (by simp),
   C7_export_data_rules.2.2 valStore "k" [] "d" true
     (releaseKey valStore "k", ["d"]) rfl⟩

/-- C9: `shutdown` empties the store — every RAM allocation is released,
every disk artifact and the scratch directory are deleted — and a second
`shutdown` is a no-op that leaves the already empty state unchanged
(`shutdown` is a total function, so neither call raises). -/
theorem C9_shutdown_idempotent (s : ContextStore) :
    (shutdown s).ramUsed = 0 ∧ (shutdown s).ramData = [] ∧
    (shutdown s).diskData = [] ∧ (shutdown s).scratchDirExists = false ∧
    (shutdown s).meta = [] ∧ shutdown (shutdown s) = shutdown s :=
  ⟨rfl, rfl, rfl, rfl, rfl, rfl⟩

/-- C10: `get_storage_info` returns `none` rather than raising when the id is
unknown, and returns the tier, byte size and pass-by method of a stored
entry. -/
theorem C10_get_storage_info_total :
    (∀ s id, alookup s.meta id = none → get_storage_info s id = none) ∧
    (∀ s id e, alookup s.meta id = some e →
      get_storage_info s id = some ⟨e.tier, e.size, e.passBy⟩) := by
  constructor
  · intro s id h
    unfold get_storage_info
    rw [h]
    rfl
  · intro s id e h
    unfold get_storage_info
    rw [h]
    rfl

/-- Witness for C10 at concrete stores: a missing key and a present key. -/
theorem C10_get_storage_info_total_witness :
    get_storage_info emptyStore "x" = none ∧
    get_storage_info valStore "k" = some ⟨Tier.RAM, 2, PassBy.VAL⟩ :=
  ⟨C10_get_storage_info_total.1 emptyStore "x" rfl,
   C10_get_storage_info_total.2 valStore "k" _ rfl⟩


/-! ### Pruner lemmas -/

theorem subset_ancestorsStep (links : List Link) (s : List Nat) :
    s ⊆ ancestorsStep links s := by
  intro a ha
  exact List.mem_append.2 (Or.inl ha)

theorem mem_ancestorsStep_elim (links : List Link) (s : List Nat) (a : Nat)
    (h : a ∈ ancestorsStep links s) :
    a ∈ s ∨ ∃ l ∈ links, l.sourceId = a ∧ l.targetId ∈ s := by
  unfold ancestorsStep at h
  rcases List.mem_append.1 h with h1 | h2
  · exact Or.inl h1
  · right
    have h3 := List.mem_dedup.1 h2
    have h4 := (List.mem_filter.1 h3).1
    obtain ⟨l, hl, hla⟩ := List.mem_map.1 h4
    have h5 := List.mem_filter.1 hl
    refine ⟨l, h5.1, hla, ?_⟩
    simpa using h5.2

theorem nodup_ancestorsStep (links : List Link) (s : List Nat)
    (h : s.Nodup) : (ancestorsStep links s).Nodup := by
  unfold ancestorsStep
  rw [List.nodup_append]
  refine ⟨h, List.nodup_dedup _, ?_⟩
  intro a ha hb
  have h3 := (List.mem_filter.1 (List.mem_dedup.1 hb)).2
  simp only [decide_eq_true_eq] at h3
  exact h3 ha

theorem ancestorsStep_closed_of_length_eq (links : List Link) (s : List Nat)
    (h : (ancestorsStep links s).length = s.length) :
    ∀ l ∈ links, l.targetId ∈ s → l.sourceId ∈ s := by
  intro l hl htgt
  unfold ancestorsStep at h
  rw [List.length_append] at h
  have hnil : ((((links.filter (fun l => decide (l.targetId ∈ s))).map
      (fun l => l.sourceId)).filter (fun a => decide (a ∉ s))).dedup) = [] :=
    List.length_eq_zero.1 (by omega)
  have hnil2 : (((links.filter (fun l => decide (l.targetId ∈ s))).map
      (fun l => l.sourceId)).filter (fun a => decide (a ∉ s))) = [] :=
    (List.dedup_eq_nil _).1 hnil
  by_contra hsrc
  have hmem : l.sourceId ∈ (((links.filter (fun l => decide (l.targetId ∈ s))).map
      (fun l => l.sourceId)).filter (fun a => decide (a ∉ s))) := by
    apply List.mem_filter.2
    refine ⟨List.mem_map.2 ⟨l, List.mem_filter.2 ⟨hl, by simpa using htgt⟩, rfl⟩, ?_⟩
    simpa using hsrc
  rw [hnil2] at hmem
  cases hmem

theorem ancestorsStep_grows (links : List Link) (s : List Nat)
    (h : ¬ (ancestorsStep links s).length = s.length) :
    s.length + 1 ≤ (ancestorsStep links s).length := by
  unfold ancestorsStep at h ⊢
  rw [List.length_append] at h ⊢
  omega

theorem iterAncestors_stable (links : List Link) (allowed : List Nat)
    (hsrc : ∀ l ∈ links, l.sourceId ∈ allowed) :
    ∀ (fuel : Nat) (s : List Nat), s.Nodup → (∀ a ∈ s, a ∈ allowed) →
      allowed.length < fuel + s.length →
      (ancestorsStep links (iterAncestors links fuel s)).length =
        (iterAncestors links fuel s).length := by
  intro fuel
  induction fuel with
  | zero =>
    intro s hnd hsub hlen
    exfalso
    have hle : s.length ≤ allowed.length :=
      (hnd.subperm (fun a ha => hsub a ha)).length_le
    omega
  | succ fuel ih =>
    intro s hnd hsub hlen
    unfold iterAncestors
    by_cases hstop : (ancestorsStep links s).length = s.length
    · rw [if_pos hstop]
      exact hstop
    · rw [if_neg hstop]
      apply ih
      · exact nodup_ancestorsStep links s hnd
      · intro a ha
        rcases mem_ancestorsStep_elim links s a ha with h1 | ⟨l, hl, hla, _⟩
        · exact hsub a h1
        · exact hla ▸ hsrc l hl
      · have := ancestorsStep_grows links s hstop
        omega

theorem subset_iterAncestors (links : List Link) :
    ∀ (fuel : Nat) (s : List Nat), s ⊆ iterAncestors links fuel s := by
  intro fuel
  induction fuel with
  | zero => intro s a ha; exact ha
  | succ fuel ih =>
    intro s a ha
    unfold iterAncestors
    by_cases hstop : (ancestorsStep links s).length = s.length
    · rw [if_pos hstop]; exact ha
    · rw [if_neg hstop]
      exact ih (ancestorsStep links s) (subset_ancestorsStep links s ha)

theorem iterAncestors_sound (links : List Link) (P : Nat → Prop)
    (hstep : ∀ a, (∃ l ∈ links, l.sourceId = a ∧ P l.targetId) → P a) :
    ∀ (fuel : Nat) (s : List Nat), (∀ a ∈ s, P a) →
      ∀ a ∈ iterAncestors links fuel s, P a := by
  intro fuel
  induction fuel with
  | zero => intro s hs a ha; exact hs a ha
  | succ fuel ih =>
    intro s hs a ha
    unfold iterAncestors at ha
    by_cases hstop : (ancestorsStep links s).length = s.length
    · rw [if_pos hstop] at ha
      exact hs a ha
    · rw [if_neg hstop] at ha
      refine ih (ancestorsStep links s) ?_ a ha
      intro b hb
      rcases mem_ancestorsStep_elim links s b hb with h1 | ⟨l, hl, hlb, htgt⟩
      · exact hs b h1
      · exact hstep b ⟨l, hl, hlb, hs _ htgt⟩

theorem mem_ancestorClosure_self (g : Graph) (t : Nat) :
    t ∈ ancestorClosure g t :=
  subset_iterAncestors g.links (g.links.length + 1) [t] (List.mem_singleton.2 rfl)

theorem ancestorClosure_closed (g : Graph) (t : Nat) :
    ∀ l ∈ g.links, l.targetId ∈ ancestorClosure g t →
      l.sourceId ∈ ancestorClosure g t := by
  have hstab := iterAncestors_stable g.links
    ((t :: g.links.map (fun l => l.sourceId)).dedup)
    (fun l hl => List.mem_dedup.2 (List.mem_cons_of_mem _
      (List.mem_map.2 ⟨l, hl, rfl⟩)))
    (g.links.length + 1) [t]
    (List.nodup_singleton t)
    (fun a ha => by
      rw [List.mem_singleton.1 ha]
      exact List.mem_dedup.2 (List.mem_cons_self _ _))
    (by
      have h1 : ((t :: g.links.map (fun l => l.sourceId)).dedup).length ≤
          (t :: g.links.map (fun l => l.sourceId)).length :=
        (List.dedup_sublist _).length_le
      simp only [List.length_cons, List.length_map] at h1
      simp only [List.length_singleton]
      omega)
  exact ancestorsStep_closed_of_length_eq g.links _ hstab

theorem mem_ancestorClosure_iff (g : Graph) (t : Nat) (a : Nat) :
    a ∈ ancestorClosure g t ↔ Ancestor g t a := by
  constructor
  · intro h
    refine iterAncestors_sound g.links (Ancestor g t) ?_ (g.links.length + 1) [t]
      ?_ a h
    · intro b hb
      obtain ⟨l, hl, hlb, htgt⟩ := hb
      exact Ancestor.step l hl hlb rfl htgt
    · intro b hb
      rw [List.mem_singleton.1 hb]
      exact Ancestor.refl
  · intro h
    induction h with
    | refl => exact mem_ancestorClosure_self g t
    | step l hl hs ht _ ih =>
      subst hs
      subst ht
      exact ancestorClosure_closed g t l hl ih

theorem evalNode_pruneToTarget (g : Graph) (t : Nat) :
    ∀ (fuel nid : Nat), nid ∈ ancestorClosure g t →
      evalNode (pruneToTarget g t) fuel nid = evalNode g fuel nid := by
  intro fuel
  induction fuel with
  | zero => intro nid _; rfl
  | succ fuel ih =>
    intro nid hnid
    have hfind : (pruneToTarget g t).nodes.find? (fun n => n.id = nid) =
        g.nodes.find? (fun n => n.id = nid) := by
      show ((g.nodes.filter _).find? _) = _
      apply find?_filter_eq
      intro a ha
      simp only [decide_eq_true_eq] at ha ⊢
      rw [ha]
      exact hnid
    have hins : (pruneToTarget g t).links.filter (fun l => l.targetId = nid) =
        g.links.filter (fun l => l.targetId = nid) := by
      show ((g.links.filter _).filter _) = _
      rw [List.filter_filter]
      apply List.filter_congr
      intro l hl
      by_cases htgt : l.targetId = nid
      · have h1 : l.targetId ∈ ancestorClosure g t := htgt ▸ hnid
        have h2 : l.sourceId ∈ ancestorClosure g t :=
          ancestorClosure_closed g t l hl h1
        simp [htgt, h1, h2, hnid]
      · simp [htgt]
    simp only [evalNode]
    rw [hfind, hins]
    cases hf : g.nodes.find? (fun n => n.id = nid) with
    | none => rfl
    | some n =>
      have hmap : (g.links.filter (fun l => l.targetId = nid)).map
          (fun l => evalNode (pruneToTarget g t) fuel l.sourceId) =
          (g.links.filter (fun l => l.targetId = nid)).map
          (fun l => evalNode g fuel l.sourceId) := by
        apply List.map_congr_left
        intro l hl
        have hl2 := List.mem_filter.1 hl
        have htgt : l.targetId = nid := by simpa using hl2.2
        have h1 : l.targetId ∈ ancestorClosure g t := htgt ▸ hnid
        have h2 : l.sourceId ∈ ancestorClosure g t :=
          ancestorClosure_closed g t l hl2.1 h1
        exact ih l.sourceId h2
      rw [hmap]

/-- C5: The pruner's recipe graph contains exactly the transitive ancestor
closure of the target under the inbound-link relation (no node or link
outside it), and executing the pruned graph through the deterministic stub
engine yields the same value at the target as executing the full graph, for
every fuel bound. -/
theorem C5_prune_exact_closure_and_equivalence (g : Graph)
    (tn ts : Nat) (fuel : Nat) :
    (∀ n, n ∈ (prune g tn ts).graph.nodes ↔ n ∈ g.nodes ∧ Ancestor g tn n.id) ∧
    (∀ l, l ∈ (prune g tn ts).graph.links ↔
      l ∈ g.links ∧ Ancestor g tn l.sourceId ∧ Ancestor g tn l.targetId) ∧
    evalNode (prune g tn ts).graph fuel tn = evalNode g fuel tn := by
  refine ⟨?_, ?_, ?_⟩
  · intro n
    show n ∈ (pruneToTarget g tn).nodes ↔ _
    unfold pruneToTarget
    rw [List.mem_filter]
    simp [mem_ancestorClosure_iff]
  · intro l
    show l ∈ (pruneToTarget g tn).links ↔ _
    unfold pruneToTarget
    rw [List.mem_filter]
    simp [mem_ancestorClosure_iff, and_assoc]
  · exact evalNode_pruneToTarget g tn fuel tn (mem_ancestorClosure_self g tn)


/-! ### Stitcher lemmas -/

theorem le_foldr_max (l : List Nat) (a : Nat) (h : a ∈ l) :
    a ≤ l.foldr max 0 := by
  induction l with
  | nil => cases h
  | cons b t ih =>
    rcases List.mem_cons.1 h with rfl | h2
    · exact le_max_left _ _
    · exact le_trans (ih h2) (le_max_right _ _)

theorem mem_nodeIds_shiftGraph (off : Nat) (g : Graph) (x : Nat)
    (h : x ∈ nodeIds (shiftGraph off g)) :
    off ≤ x ∧ x ≤ off + graphMaxId g := by
  unfold nodeIds shiftGraph at h
  simp only [List.map_map] at h
  obtain ⟨n, hn, hx⟩ := List.mem_map.1 h
  have hid : n.id ∈ nodeIds g ++ linkIds g :=
    List.mem_append.2 (Or.inl (List.mem_map.2 ⟨n, hn, rfl⟩))
  have hb : n.id ≤ graphMaxId g := le_foldr_max _ _ hid
  have hx2 : x = n.id + off := by
    rw [← hx]
    rfl
  omega

theorem mem_linkIds_shiftGraph (off : Nat) (g : Graph) (x : Nat)
    (h : x ∈ linkIds (shiftGraph off g)) :
    off ≤ x ∧ x ≤ off + graphMaxId g := by
  unfold linkIds shiftGraph at h
  simp only [List.map_map] at h
  obtain ⟨l, hl, hx⟩ := List.mem_map.1 h
  have hid : l.id ∈ nodeIds g ++ linkIds g :=
    List.mem_append.2 (Or.inr (List.mem_map.2 ⟨l, hl, rfl⟩))
  have hb : l.id ≤ graphMaxId g := le_foldr_max _ _ hid
  have hx2 : x = l.id + off := by
    rw [← hx]
    rfl
  omega

theorem renumber_lower (ids : Graph → List Nat)
    (hlow : ∀ off g x, x ∈ ids (shiftGraph off g) → off ≤ x)
    (hempty : ids emptyGraph = []) :
    ∀ (gs : List Graph) (off k x : Nat),
      x ∈ ids ((renumberFrom off gs).getD k emptyGraph) → off ≤ x := by
  intro gs
  induction gs with
  | nil =>
    intro off k x hx
    rw [show renumberFrom off ([] : List Graph) = [] from rfl,
      List.getD_nil, hempty] at hx
    cases hx
  | cons g gs ih =>
    intro off k x hx
    cases k with
    | zero =>
      simp only [renumberFrom, List.getD_cons_zero] at hx
      exact hlow off g x hx
    | succ k =>
      simp only [renumberFrom, List.getD_cons_succ] at hx
      have := ih (off + graphMaxId g + 1) k x hx
      omega

theorem renumber_disjoint_aux (ids : Graph → List Nat)
    (hlow : ∀ off g x, x ∈ ids (shiftGraph off g) → off ≤ x)
    (hhigh : ∀ off g x, x ∈ ids (shiftGraph off g) → x ≤ off + graphMaxId g)
    (hempty : ids emptyGraph = []) :
    ∀ (gs : List Graph) (off i j x : Nat), i < j →
      x ∈ ids ((renumberFrom off gs).getD i emptyGraph) →
      x ∈ ids ((renumberFrom off gs).getD j emptyGraph) → False := by
  intro gs
  induction gs with
  | nil =>
    intro off i j x hij hxi hxj
    rw [show renumberFrom off ([] : List Graph) = [] from rfl,
      List.getD_nil, hempty] at hxi
    cases hxi
  | cons g gs ih =>
    intro off i j x hij hxi hxj
    cases i with
    | zero =>
      cases j with
      | zero => exact absurd hij (lt_irrefl 0)
      | succ j =>
        simp only [renumberFrom, List.getD_cons_zero] at hxi
        simp only [renumberFrom, List.getD_cons_succ] at hxj
        have h1 := hhigh off g x hxi
        have h2 := renumber_lower ids hlow hempty gs (off + graphMaxId g + 1) j x hxj
        omega
    | succ i =>
      cases j with
      | zero => exact absurd hij (by omega)
      | succ j =>
        simp only [renumberFrom, List.getD_cons_succ] at hxi hxj
        exact ih (off + graphMaxId g + 1) i j x (by omega) hxi hxj

theorem stitch_ok_inversion (gs : List Graph) (dIn dOut : Bool)
    (sg : StitchedGraph) (h : stitch_workflows gs dIn dOut = Except.ok sg) :
    sg.graph = stitchUnion gs dIn dOut ∧
    isTopoOrder sg.graph sg.execution_order = true := by
  cases hk : kahn (stitchUnion gs dIn dOut).links
      ((stitchUnion gs dIn dOut).nodes.length + 1) []
      (nodeIds (stitchUnion gs dIn dOut)) with
  | none =>
    simp only [stitch_workflows, hk] at h
    cases h
  | some ord =>
    simp only [stitch_workflows, hk] at h
    by_cases ht : isTopoOrder (stitchUnion gs dIn dOut) ord = true
    · rw [if_pos ht] at h
      cases h
      exact ⟨rfl, ht⟩
    · rw [if_neg ht] at h
      cases h

theorem transGen_pathStep_lt (g : Graph) (ord : List Nat)
    (hord : ∀ l ∈ g.links, ord.indexOf l.sourceId < ord.indexOf l.targetId) :
    ∀ a b, Relation.TransGen (PathStep g) a b →
      ord.indexOf a < ord.indexOf b := by
  intro a b h
  induction h with
  | single h1 =>
    obtain ⟨l, hl, hs, ht⟩ := h1
    exact hs ▸ ht ▸ hord l hl
  | tail _ h1 ih =>
    obtain ⟨l, hl, hs, ht⟩ := h1
    exact lt_trans ih (hs ▸ ht ▸ hord l hl)

theorem cycle_no_topoOrder (g : Graph) (a : Nat)
    (hcyc : Relation.TransGen (PathStep g) a a) (ord : List Nat) :
    ¬ (isTopoOrder g ord = true) := by
  intro h
  unfold isTopoOrder at h
  rw [Bool.and_eq_true] at h
  have hord : ∀ l ∈ g.links, ord.indexOf l.sourceId < ord.indexOf l.targetId := by
    intro l hl
    have := List.all_eq_true.1 h.1 l hl
    simpa using this
  exact lt_irrefl _ (transGen_pathStep_lt g ord hord a a hcyc)

/-- C2: Stitching renumbers the input graphs so that node id sets and link id
sets taken from distinct source graphs are pairwise disjoint; a successful
stitch returns an execution order that is a valid topological order of the
stitched graph (every link's source strictly precedes its target, and every
node appears in the order); and whenever the union graph contains a cycle —
including one introduced by the join step — stitching returns
GraphValidationError and no graph at all. -/
theorem C2_stitch_disjoint_topo_and_cycle_error :
    (∀ (gs : List Graph) (i j x : Nat), i < j →
      (x ∈ nodeIds ((renumberGraphs gs).getD i emptyGraph) →
        x ∈ nodeIds ((renumberGraphs gs).getD j emptyGraph) → False) ∧
      (x ∈ linkIds ((renumberGraphs gs).getD i emptyGraph) →
        x ∈ linkIds ((renumberGraphs gs).getD j emptyGraph) → False)) ∧
    (∀ (gs : List Graph) (dIn dOut : Bool) (sg : StitchedGraph),
      stitch_workflows gs dIn dOut = Except.ok sg →
      (∀ l ∈ sg.graph.links,
        sg.execution_order.indexOf l.sourceId <
          sg.execution_order.indexOf l.targetId) ∧
      (∀ x ∈ nodeIds sg.graph, x ∈ sg.execution_order)) ∧
    (∀ (gs : List Graph) (dIn dOut : Bool) (a : Nat),
      Relation.TransGen (PathStep (stitchUnion gs dIn dOut)) a a →
      stitch_workflows gs dIn dOut = Except.error StitchError.graphValidation) := by
  refine ⟨?_, ?_, ?_⟩
  · intro gs i j x hij
    constructor
    · exact renumber_disjoint_aux nodeIds
        (fun off g y hy => (mem_nodeIds_shiftGraph off g y hy).1)
        (fun off g y hy => (mem_nodeIds_shiftGraph off g y hy).2)
        rfl gs 0 i j x hij
    · exact renumber_disjoint_aux linkIds
        (fun off g y hy => (mem_linkIds_shiftGraph off g y hy).1)
        (fun off g y hy => (mem_linkIds_shiftGraph off g y hy).2)
        rfl gs 0 i j x hij
  · intro gs dIn dOut sg h
    obtain ⟨hgr, ht⟩ := stitch_ok_inversion gs dIn dOut sg h
    unfold isTopoOrder at ht
    rw [Bool.and_eq_true] at ht
    constructor
    · intro l hl
      have := List.all_eq_true.1 ht.1 l hl
      simpa using this
    · intro x hx
      have := List.all_eq_true.1 ht.2 x hx
      exact List.elem_iff.1 this
  · intro gs dIn dOut a hcyc
    cases hk : kahn (stitchUnion gs dIn dOut).links
        ((stitchUnion gs dIn dOut).nodes.length + 1) []
        (nodeIds (stitchUnion gs dIn dOut)) with
    | none => simp only [stitch_workflows, hk]
    | some ord =>
      simp only [stitch_workflows, hk]
      rw [if_neg (cycle_no_topoOrder (stitchUnion gs dIn dOut) a hcyc ord)]

/-- Witness for C2 at concrete graphs: renumbered ids of the second graph
avoid those of the first; a concrete stitch succeeds with a topological
execution order; a self-loop graph makes stitching fail with
GraphValidationError. -/
theorem C2_stitch_witness :
    (0 ∈ nodeIds ((renumberGraphs [gA, gB]).getD 0 emptyGraph)) ∧
    ¬ (0 ∈ nodeIds ((renumberGraphs [gA, gB]).getD 1 emptyGraph)) ∧
    stitch_workflows [gC] false false = Except.ok sgC ∧
    sgC.execution_order.indexOf linkC.sourceId <
      sgC.execution_order.indexOf linkC.targetId ∧
    stitch_workflows [gD] false false =
      Except.error StitchError.graphValidation := by
  have hok : stitch_workflows [gC] false false = Except.ok sgC := by rfl
  refine ⟨by decide, ?_, hok, ?_, ?_⟩
  · intro hmem
    exact (C2_stitch_disjoint_topo_and_cycle_error.1 [gA, gB] 0 1 0
      (by decide)).1 (by decide) hmem
  · exact (C2_stitch_disjoint_topo_and_cycle_error.2.1 [gC] false false sgC
      hok).1 linkC (by decide)
  · exact C2_stitch_disjoint_topo_and_cycle_error.2.2 [gD] false false 0
      (Relation.TransGen.single ⟨linkD, by decide, rfl, rfl⟩)

end Discomfort
